import Mathlib

/-!
Verification of `scripts/analyze_timings.py` and `scripts/smart-clean.py`.

The log analyzer's parsing state machine, its duration statistics and its
histogram bucket computation, and the cleaner's path classifier are embedded
as executable Lean definitions, and the documented properties are proved
about them.

Conventions of the embedding:

* Lines handed to the parser come from Python file iteration followed by
  `line.strip()`, so a line never contains a newline character; the regex
  searches below are exact on newline-free text.
* Python `datetime` values are modelled by an arbitrary type `T` with a
  subtraction (only differences of timestamps are ever used); concrete
  instances use `ℤ` (whole seconds).
* Python floats are modelled by `ℚ` (exact arithmetic; none of the proved
  properties depends on rounding).
-/

namespace Mydoo

/-- The ASCII whitespace characters removed by Python `str.strip()`. -/
def isSpaceChar (c : Char) : Bool :=
  c == ' ' || c == '\t' || c == '\n' || c == '\r' || c == '\x0b' || c == '\x0c'

/-- Python `line.strip()` on the characters of a line. -/
def pyStrip (s : List Char) : List Char :=
  ((s.dropWhile isSpaceChar).reverse.dropWhile isSpaceChar).reverse

/-- Split `s` at the first occurrence of the literal fragment `pat`: returns
the characters strictly before that occurrence and those strictly after it.
This is the leftmost match of a literal fragment, the building block of the
lazy-group regex searches below. -/
def splitOnFirst (pat : List Char) : List Char → Option (List Char × List Char)
  | [] => if pat.isEmpty then some ([], []) else none
  | c :: rest =>
    if pat.isPrefixOf (c :: rest) then
      some ([], (c :: rest).drop pat.length)
    else
      match splitOnFirst pat rest with
      | some (pre, post) => some (c :: pre, post)
      | none => none

/-- `TEST_START_RE.search(line)` for
`\[(.*?)\] --- TEST STARTED: (.*?) ---`: the match starts at the leftmost
`[` from which the whole pattern can complete, and each lazy group takes the
shortest text, i.e. each literal fragment is matched at its first occurrence.
Returns the captured (timestamp, test name) groups. -/
def searchTestStart : List Char → Option (List Char × List Char)
  | [] => none
  | c :: rest =>
    (if c = '[' then
      match splitOnFirst "] --- TEST STARTED: ".toList rest with
      | some (ts, r2) =>
        match splitOnFirst " ---".toList r2 with
        | some (nm, _) => some (ts, nm)
        | none => none
      | none => none
    else none).orElse (fun _ => searchTestStart rest)

/-- `TEST_END_RE.search(line)` for
`\[(.*?)\] --- TEST ENDED: (.*?) \((.*?)\) ---`.  Returns the captured
(timestamp, test name, status) groups. -/
def searchTestEnd : List Char → Option (List Char × List Char × List Char)
  | [] => none
  | c :: rest =>
    (if c = '[' then
      match splitOnFirst "] --- TEST ENDED: ".toList rest with
      | some (ts, r2) =>
        match splitOnFirst " (".toList r2 with
        | some (nm, r3) =>
          match splitOnFirst ") ---".toList r3 with
          | some (stt, _) => some (ts, nm, stt)
          | none => none
        | none => none
      | none => none
    else none).orElse (fun _ => searchTestEnd rest)

/-- `STEP_START_RE.search(line)` for `\[(.*?)\] Started step: (.*)`: the final
greedy group is the whole remainder of the line. -/
def searchStepStart : List Char → Option (List Char × List Char)
  | [] => none
  | c :: rest =>
    (if c = '[' then
      match splitOnFirst "] Started step: ".toList rest with
      | some (ts, r2) => some (ts, r2)
      | none => none
    else none).orElse (fun _ => searchStepStart rest)

/-- `STEP_END_RE.search(line)` for `\[(.*?)\] Finished step: (.*)`. -/
def searchStepEnd : List Char → Option (List Char × List Char)
  | [] => none
  | c :: rest =>
    (if c = '[' then
      match splitOnFirst "] Finished step: ".toList rest with
      | some (ts, r2) => some (ts, r2)
      | none => none
    else none).orElse (fun _ => searchStepEnd rest)

/-- A completed step: the `full_step` dict built in the Step End branch of
`parse_log_file` (keys `name`, `duration`, `test`, `start`). -/
structure Step (T : Type) where
  name : String
  duration : T
  test : String
  start : T
  deriving DecidableEq

/-- An entry of `step_stack`: the dict pushed in the Step Start branch. -/
structure StackEntry (T : Type) where
  name : String
  start : T
  deriving DecidableEq

/-- The `current_test` dict as created in the Test Start branch (keys `name`,
`start`, `steps`, `line`). -/
structure TestCtx (T : Type) where
  name : String
  start : T
  steps : List (Step T)
  line : Nat
  deriving DecidableEq

/-- A completed test: `current_test` after the Test End branch added the keys
`end`, `duration`, `status` (field `stop` models the key `end`, a Lean
keyword). -/
structure Test (T : Type) where
  name : String
  start : T
  steps : List (Step T)
  line : Nat
  stop : T
  duration : T
  status : String
  deriving DecidableEq

/-- The mutable state of the line loop of `parse_log_file`. -/
structure ParserState (T : Type) where
  completed : List (Test T)
  all_steps : List (Step T)
  current : Option (TestCtx T)
  step_stack : List (StackEntry T)
  deriving DecidableEq

/-- The state before the first line: empty lists, no current test. -/
def initState (T : Type) : ParserState T := ⟨[], [], none, []⟩

/-- `current_test["name"] if current_test else "UNKNOWN"`. -/
def currentName {T : Type} : Option (TestCtx T) → String
  | some ct => ct.name
  | none => "UNKNOWN"

/-- The backward scan plus `pop(match_idx)` of the Step End branch: remove
the entry closest to the top of the stack (the end of the list) whose name
matches, returning it together with the remaining stack in order. -/
def popLastMatch {T : Type} (name : String) :
    List (StackEntry T) → Option (StackEntry T × List (StackEntry T))
  | [] => none
  | e :: rest =>
    match popLastMatch name rest with
    | some (r, rest') => some (r, e :: rest')
    | none => if e.name = name then some (e, rest) else none

/-- The Test Start branch of `parse_log_file`.  `iso` models
`dateutil.parser.isoparse`; `none` models the raised exception, on which the
`except` clause leaves all state unchanged. -/
def applyTestStart {T : Type} (iso : String → Option T) (st : ParserState T)
    (lineNum : Nat) (ts name : String) : ParserState T :=
  match iso ts with
  | some dt => { st with current := some ⟨name, dt, [], lineNum⟩, step_stack := [] }
  | none => st

/-- The Test End branch of `parse_log_file`. -/
def applyTestEnd {T : Type} [Sub T] (iso : String → Option T) (st : ParserState T)
    (ts name status : String) : ParserState T :=
  match iso ts with
  | some dt =>
    match st.current with
    | some ct =>
      if ct.name = name then
        { st with
          completed := st.completed ++
            [⟨ct.name, ct.start, ct.steps, ct.line, dt, dt - ct.start, status⟩],
          current := none }
      else st
    | none => st
  | none => st

/-- The Step Start branch of `parse_log_file`: push onto the stack whether or
not a test is open. -/
def applyStepStart {T : Type} (iso : String → Option T) (st : ParserState T)
    (ts name : String) : ParserState T :=
  match iso ts with
  | some dt => { st with step_stack := st.step_stack ++ [⟨name, dt⟩] }
  | none => st

/-- The Step End branch of `parse_log_file`: pop the nearest same-named stack
entry if any; emit the completed step into `all_steps` and, when a test is
open, also into its `steps`. -/
def applyStepEnd {T : Type} [Sub T] (iso : String → Option T) (st : ParserState T)
    (ts name : String) : ParserState T :=
  match iso ts with
  | some dt =>
    match popLastMatch name st.step_stack with
    | some (entry, rest) =>
      let fullStep : Step T := ⟨name, dt - entry.start, currentName st.current, entry.start⟩
      { st with
        step_stack := rest,
        all_steps := st.all_steps ++ [fullStep],
        current := st.current.map fun ct => { ct with steps := ct.steps ++ [fullStep] } }
    | none => st
  | none => st

/-- One iteration of the line loop of `parse_log_file`: strip the line, try
the four patterns in their fixed order, let the first match handle the line
(each branch ends in `continue`), ignore lines matching no pattern. -/
def processLine {T : Type} [Sub T] (iso : String → Option T) (st : ParserState T)
    (lineNum : Nat) (raw : String) : ParserState T :=
  let line := pyStrip raw.toList
  match searchTestStart line with
  | some (ts, name) => applyTestStart iso st lineNum ts.asString name.asString
  | none =>
    match searchTestEnd line with
    | some (ts, name, status) =>
        applyTestEnd iso st ts.asString name.asString status.asString
    | none =>
      match searchStepStart line with
      | some (ts, name) => applyStepStart iso st ts.asString name.asString
      | none =>
        match searchStepEnd line with
        | some (ts, name) => applyStepEnd iso st ts.asString name.asString
        | none => st

/-- The line loop of `parse_log_file` over already-enumerated lines. -/
def processLines {T : Type} [Sub T] (iso : String → Option T) (st : ParserState T)
    (ls : List (Nat × String)) : ParserState T :=
  ls.foldl (fun s p => processLine iso s p.1 p.2) st

/-- `parse_log_file`: scan the enumerated lines from the initial state and
return `(completed_tests, all_steps)`. -/
def parse_log_file {T : Type} [Sub T] (iso : String → Option T)
    (lines : List String) : List (Test T) × List (Step T) :=
  let fin := processLines iso (initState T) lines.enum
  (fin.completed, fin.all_steps)

/-- Days from 0000-03-01 of a proleptic-Gregorian civil date (the standard
era/year-of-era formula); valid for year ≥ 1. -/
def daysFromCivil (y m d : Nat) : Nat :=
  let yy := if m ≤ 2 then y - 1 else y
  let mp := if m ≤ 2 then m + 9 else m - 3
  let era := yy / 400
  let yoe := yy % 400
  let doy := (153 * mp + 2) / 5 + (d - 1)
  let doe := yoe * 365 + yoe / 4 - yoe / 100 + doy
  era * 146097 + doe

/-- Modelled from the spec: `dateutil.parser.isoparse`, the "flexible
ISO-8601-capable parser" used by `parse_log_file` — an external library whose
code is not part of this repository.  Modelled for timestamps of the exact
shape `YYYY-MM-DDThh:mm:ssZ` (the shape documented for the log format); the
result is whole seconds since 0000-03-01 UTC; anything else is a parse
failure (`none`, the raised exception). -/
def isoparseModel (s : String) : Option ℤ :=
  match s.toList with
  | [y1, y2, y3, y4, '-', mo1, mo2, '-', d1, d2, 'T',
     h1, h2, ':', mi1, mi2, ':', s1, s2, 'Z'] =>
    if [y1, y2, y3, y4, mo1, mo2, d1, d2, h1, h2, mi1, mi2, s1, s2].all Char.isDigit then
      let v : Char → Nat := fun c => c.toNat - 48
      let y := 1000 * v y1 + 100 * v y2 + 10 * v y3 + v y4
      let mo := 10 * v mo1 + v mo2
      let da := 10 * v d1 + v d2
      let h := 10 * v h1 + v h2
      let mi := 10 * v mi1 + v mi2
      let se := 10 * v s1 + v s2
      some ((daysFromCivil y mo da * 86400 + h * 3600 + mi * 60 + se : Nat) : ℤ)
    else none
  | _ => none

/-- Python `min()` over a list of floats, as `analyze_durations` and
`print_histogram` use it; the code only applies it to non-empty lists (Python
raises on an empty one), so the value at `[]` is arbitrary. -/
def pyMin : List ℚ → ℚ
  | [] => 0
  | h :: t => t.foldl min h

/-- Python `max()` over a list of floats; see `pyMin`. -/
def pyMax : List ℚ → ℚ
  | [] => 0
  | h :: t => t.foldl max h

/-- Python `sorted()` on a list of floats.  Any two sorted permutations of
the same list are equal, so stable insertion sort is an exact model. -/
def pySorted (l : List ℚ) : List ℚ := l.insertionSort (· ≤ ·)

/-- `statistics.median`: middle element of the sorted list, or the mean of
the two middle elements for even length.  Only called on non-empty lists. -/
def pyMedian (l : List ℚ) : ℚ :=
  let s := pySorted l
  if s.length % 2 = 1 then s.getD (s.length / 2) 0
  else (s.getD (s.length / 2 - 1) 0 + s.getD (s.length / 2) 0) / 2

/-- The percentile index `int(len(durations) * 0.95)` of `analyze_durations`.
The Python expression multiplies by the double closest to 0.95 (which is
0.95·(1+δ) with |δ| < 2⁻⁵²) and truncates; for every list length in floating
range the result equals `⌊19n/20⌋`, the exact-arithmetic value used here:
the exact products 0.95·n sit at multiples of 1/20, so the relative error
δ can never move the product across an integer boundary. -/
def p95Index (n : Nat) : Nat := 19 * n / 20

/-- The dict returned by `analyze_durations` for a non-empty input. -/
structure Stats where
  count : Nat
  total : ℚ
  min : ℚ
  max : ℚ
  avg : ℚ
  median : ℚ
  p95 : ℚ
  deriving DecidableEq

/-- `analyze_durations`.  Items are represented by their `"duration"`
values, the only key the function reads.  `none` models the empty dict
returned for an empty input (every later read of it uses `.get` with
default `0`); `statistics.mean` is the exact sum divided by the count. -/
def analyze_durations (durations : List ℚ) : Option Stats :=
  if durations.isEmpty then none
  else
    some
      { count := durations.length
        total := durations.sum
        min := pyMin durations
        max := pyMax durations
        avg := durations.sum / durations.length
        median := pyMedian durations
        p95 :=
          if 1 < durations.length then
            (pySorted durations).getD (p95Index durations.length) 0
          else durations.headD 0 }

/-- Python `int()` on a float: truncation toward zero. -/
def pyInt (q : ℚ) : ℤ := if q < 0 then -⌊-q⌋ else ⌊q⌋

/-- The bucket index computed for each value in the loop of
`print_histogram`: `min(int((x - min_val) / bin_width), bins - 1)`. -/
def bucketIdx (minVal binWidth : ℚ) (bins : Nat) (x : ℚ) : ℤ :=
  min (pyInt ((x - minVal) / binWidth)) ((bins : ℤ) - 1)

/-- The bucket index of `x` as `print_histogram data title bins` computes it
once it has passed its guards: `bin_width = (max_val - min_val) / bins`. -/
def histogramIdx (data : List ℚ) (bins : Nat) (x : ℚ) : ℤ :=
  bucketIdx (pyMin data) ((pyMax data - pyMin data) / (bins : ℚ)) bins x

/-- `HIGH_CONFIDENCE_PATTERNS` of `smart-clean.py`.  Each compiled regex is a
literal string (the only metacharacter is an escaped dot), so `pat.search(p)`
is substring containment. -/
def HIGH_CONFIDENCE_PATTERNS : List (List Char) :=
  ["node_modules".toList, "dist/".toList, ".turbo/".toList, "coverage/".toList,
   "playwright-report/".toList, "test-results/".toList, ".tsbuildinfo".toList,
   ".husky/_".toList, "src/generated".toList]

/-- `pat.search(p)` for a literal pattern: does `pat` occur in `s`? -/
def patSearch (pat s : List Char) : Bool := (splitOnFirst pat s).isSome

/-- `any(pat.search(p) for pat in HIGH_CONFIDENCE_PATTERNS)`: the ordered
first-match-wins test deciding the bucket of path `p` in `main`. -/
def isHighConfidence (p : String) : Bool :=
  HIGH_CONFIDENCE_PATTERNS.any fun pat => patSearch pat p.toList

/-- The classification loop of `main` in `smart-clean.py`: split the
candidate paths into the `high_confidence` and `other` buckets in order. -/
def classifyPaths (paths : List String) : List String × List String :=
  paths.foldl
    (fun acc p =>
      if isHighConfidence p then (acc.1 ++ [p], acc.2) else (acc.1, acc.2 ++ [p]))
    ([], [])

/-- If no stack entry bears `name`, the backward scan finds nothing. -/
theorem popLastMatch_eq_none {T : Type} (name : String) (l : List (StackEntry T))
    (h : ∀ x ∈ l, x.name ≠ name) : popLastMatch name l = none := by
  induction l with
  | nil => rfl
  | cons e rest ih =>
    have hrest := ih fun x hx => h x (List.mem_cons_of_mem _ hx)
    simp [popLastMatch, hrest, h e (List.mem_cons_self e rest)]

/-- The backward scan removes exactly the same-named entry nearest to the top
of the stack (the end of the list), keeping the rest in order. -/
theorem popLastMatch_eq_some {T : Type} (name : String) (l1 l2 : List (StackEntry T))
    (e : StackEntry T) (he : e.name = name) (h2 : ∀ x ∈ l2, x.name ≠ name) :
    popLastMatch name (l1 ++ e :: l2) = some (e, l1 ++ l2) := by
  induction l1 with
  | nil => simp [popLastMatch, popLastMatch_eq_none name l2 h2, he]
  | cons a l1 ih => simp [popLastMatch, ih]

/-- C2: a Step End line with a well-formed timestamp pops the same-named
stack entry nearest to the top of the stack — possibly from the middle, with
the order of the remaining entries preserved — and emits exactly one
completed step, of duration end minus that entry's start, attributed to the
open test's name or `"UNKNOWN"` when no test is open; when no entry anywhere
in the stack bears the name, the state is unchanged and no step is emitted. -/
theorem c2_stepEnd_stack_matching {T : Type} [Sub T] (iso : String → Option T)
    (st : ParserState T) (ln : Nat) (raw : String) (ts nm : List Char) (dt : T)
    (h1 : searchTestStart (pyStrip raw.toList) = none)
    (h2 : searchTestEnd (pyStrip raw.toList) = none)
    (h3 : searchStepStart (pyStrip raw.toList) = none)
    (h4 : searchStepEnd (pyStrip raw.toList) = some (ts, nm))
    (hiso : iso ts.asString = some dt) :
    (∀ (l1 : List (StackEntry T)) (e : StackEntry T) (l2 : List (StackEntry T)),
        st.step_stack = l1 ++ e :: l2 → e.name = nm.asString →
        (∀ x ∈ l2, x.name ≠ nm.asString) →
        processLine iso st ln raw =
          { st with
            step_stack := l1 ++ l2,
            all_steps := st.all_steps ++
              [⟨nm.asString, dt - e.start, currentName st.current, e.start⟩],
            current := st.current.map fun ct =>
              { ct with steps := ct.steps ++
                  [⟨nm.asString, dt - e.start, currentName st.current, e.start⟩] } }) ∧
    ((∀ x ∈ st.step_stack, x.name ≠ nm.asString) → processLine iso st ln raw = st) := by
  constructor
  · intro l1 e l2 hstack he hl2
    simp only [processLine, h1, h2, h3, h4, applyStepEnd, hiso, hstack,
      popLastMatch_eq_some nm.asString l1 l2 e he hl2]
  · intro hnone
    simp only [processLine, h1, h2, h3, h4, applyStepEnd, hiso,
      popLastMatch_eq_none nm.asString st.step_stack hnone]

/-- Witness for `c2_stepEnd_stack_matching`: with stack entries `a` then `s`
(top) and no open test, the line `[ts] Finished step: s` pops the top entry
and emits a step of duration 2 attributed to `"UNKNOWN"`. -/
theorem c2_stepEnd_stack_matching_witness :
    processLine (fun _ => some (12 : ℤ)) ⟨[], [], none, [⟨"a", 0⟩, ⟨"s", 10⟩]⟩ 0
        "[ts] Finished step: s" =
      ⟨[], [⟨"s", 2, "UNKNOWN", 10⟩], none, [⟨"a", 0⟩]⟩ := by
  have h := (c2_stepEnd_stack_matching (fun _ => some (12 : ℤ))
      ⟨[], [], none, [⟨"a", 0⟩, ⟨"s", 10⟩]⟩ 0 "[ts] Finished step: s"
      "ts".toList "s".toList 12 rfl rfl rfl rfl rfl).1
      [⟨"a", 0⟩] ⟨"s", 10⟩ [] rfl rfl (by simp)
  simpa [currentName] using h

/-- C3: a Test Start line with a well-formed timestamp replaces the current
test (discarding, unemitted, any test still open) and unconditionally clears
the step stack; consequently everything the parser does from that line on is
independent of the previous open test and of the steps pushed before the
line, so orphan steps of an unterminated prior test never reach the output. -/
theorem c3_testStart_discards {T : Type} [Sub T] (iso : String → Option T)
    (st1 st2 : ParserState T) (ln : Nat) (raw : String) (ts nm : List Char) (dt : T)
    (h1 : searchTestStart (pyStrip raw.toList) = some (ts, nm))
    (hiso : iso ts.asString = some dt)
    (hc : st1.completed = st2.completed) (ha : st1.all_steps = st2.all_steps) :
    processLine iso st1 ln raw =
      { st1 with current := some ⟨nm.asString, dt, [], ln⟩, step_stack := [] } ∧
    ∀ rest : List (Nat × String),
      processLines iso st1 ((ln, raw) :: rest) =
        processLines iso st2 ((ln, raw) :: rest) := by
  have key : ∀ st : ParserState T, processLine iso st ln raw =
      { st with current := some ⟨nm.asString, dt, [], ln⟩, step_stack := [] } := by
    intro st
    simp only [processLine, h1, applyTestStart, hiso]
  refine ⟨key st1, fun rest => ?_⟩
  simp only [processLines, List.foldl_cons]
  rw [key st1, key st2]
  cases st1
  cases st2
  simp_all

/-- Witness for `c3_testStart_discards`: starting test `A` wipes an open test
`Old` and an orphan stack entry, so a later `Finished step: orphan` line
leads to the same final state as from a parser that never saw them. -/
theorem c3_testStart_discards_witness :
    processLines (fun _ => some (5 : ℤ))
        ⟨[], [], some ⟨"Old", 0, [], 0⟩, [⟨"orphan", 1⟩]⟩
        [(0, "[t] --- TEST STARTED: A ---"), (1, "[u] Finished step: orphan")] =
      processLines (fun _ => some (5 : ℤ)) ⟨[], [], none, []⟩
        [(0, "[t] --- TEST STARTED: A ---"), (1, "[u] Finished step: orphan")] :=
  (c3_testStart_discards (fun _ => some (5 : ℤ))
      ⟨[], [], some ⟨"Old", 0, [], 0⟩, [⟨"orphan", 1⟩]⟩ ⟨[], [], none, []⟩ 0
      "[t] --- TEST STARTED: A ---" "t".toList "A".toList 5 rfl rfl rfl rfl).2
    [(1, "[u] Finished step: orphan")]

/-- C7: a Test End line with a well-formed timestamp finalizes and emits the
open test exactly when one is open and its name matches; with no open test,
or a name mismatch, the whole parser state is left unchanged. -/
theorem c7_testEnd_guard {T : Type} [Sub T] (iso : String → Option T)
    (st : ParserState T) (ln : Nat) (raw : String) (ts nm stt : List Char) (dt : T)
    (h1 : searchTestStart (pyStrip raw.toList) = none)
    (h2 : searchTestEnd (pyStrip raw.toList) = some (ts, nm, stt))
    (hiso : iso ts.asString = some dt) :
    (∀ ct : TestCtx T, st.current = some ct → ct.name = nm.asString →
        processLine iso st ln raw =
          { st with
            completed := st.completed ++
              [⟨ct.name, ct.start, ct.steps, ct.line, dt, dt - ct.start, stt.asString⟩],
            current := none }) ∧
    (st.current = none → processLine iso st ln raw = st) ∧
    (∀ ct : TestCtx T, st.current = some ct → ct.name ≠ nm.asString →
        processLine iso st ln raw = st) := by
  refine ⟨fun ct hct hn => ?_, fun hct => ?_, fun ct hct hn => ?_⟩
  · simp only [processLine, h1, h2, applyTestEnd, hiso, hct, if_pos hn]
  · simp only [processLine, h1, h2, applyTestEnd, hiso, hct]
  · simp only [processLine, h1, h2, applyTestEnd, hiso, hct, if_neg hn]

/-- Witness for `c7_testEnd_guard`: a matching `TEST ENDED: Login` line emits
the open `Login` test with duration 3. -/
theorem c7_testEnd_guard_witness :
    processLine (fun _ => some (103 : ℤ)) ⟨[], [], some ⟨"Login", 100, [], 0⟩, []⟩ 3
        "[t] --- TEST ENDED: Login (passed) ---" =
      ⟨[⟨"Login", 100, [], 0, 103, 3, "passed"⟩], [], none, []⟩ := by
  have h := (c7_testEnd_guard (fun _ => some (103 : ℤ))
      ⟨[], [], some ⟨"Login", 100, [], 0⟩, []⟩ 3
      "[t] --- TEST ENDED: Login (passed) ---"
      "t".toList "Login".toList "passed".toList 103 rfl rfl rfl).1
      ⟨"Login", 100, [], 0⟩ rfl rfl
  simpa using h

/-- C1: the four-line Login log parses to exactly one completed test named
`Login`, status `passed`, of duration 3 seconds, whose step list holds
exactly one step `click` of duration 1 second attributed to test `Login`;
the global step list holds exactly that same step.  (Timestamps are whole
seconds since 0000-03-01; 63866102400 is 2024-01-01T00:00:00Z.) -/
theorem c1_login_log :
    parse_log_file isoparseModel
      ["[2024-01-01T00:00:00Z] --- TEST STARTED: Login ---",
       "[2024-01-01T00:00:01Z] Started step: click",
       "[2024-01-01T00:00:02Z] Finished step: click",
       "[2024-01-01T00:00:03Z] --- TEST ENDED: Login (passed) ---"] =
      ([{ name := "Login", start := 63866102400,
          steps := [{ name := "click", duration := 1, test := "Login",
                      start := 63866102401 }],
          line := 0, stop := 63866102403, duration := 3, status := "passed" }],
       [{ name := "click", duration := 1, test := "Login",
          start := 63866102401 }]) := by
  decide

/-- C4 counterexample: this line is matched by both the TestStart regex and
the StepStart regex, so the four patterns are not mutually exclusive over
arbitrary line text (the code still runs only one handler, because it tests
the patterns in a fixed order and stops at the first match). -/
theorem c4_counterexample :
    (searchTestStart "[a] Started step: [b] --- TEST STARTED: c ---".toList).isSome
        = true ∧
    (searchStepStart "[a] Started step: [b] --- TEST STARTED: c ---".toList).isSome
        = true := by
  decide

/-- C4 (amended): for every input line the four patterns are tried in the
fixed order TestStart, TestEnd, StepStart, StepEnd and the first match alone
determines the handler, so at most one handler runs per line and a line
matching no pattern leaves the state unchanged — even though the regexes
themselves are not mutually exclusive. -/
theorem c4_priority_dispatch {T : Type} [Sub T] (iso : String → Option T)
    (st : ParserState T) (ln : Nat) (raw : String) :
    (∀ ts nm, searchTestStart (pyStrip raw.toList) = some (ts, nm) →
        processLine iso st ln raw =
          applyTestStart iso st ln ts.asString nm.asString) ∧
    (searchTestStart (pyStrip raw.toList) = none →
      ∀ ts nm stt, searchTestEnd (pyStrip raw.toList) = some (ts, nm, stt) →
        processLine iso st ln raw =
          applyTestEnd iso st ts.asString nm.asString stt.asString) ∧
    (searchTestStart (pyStrip raw.toList) = none →
      searchTestEnd (pyStrip raw.toList) = none →
      ∀ ts nm, searchStepStart (pyStrip raw.toList) = some (ts, nm) →
        processLine iso st ln raw = applyStepStart iso st ts.asString nm.asString) ∧
    (searchTestStart (pyStrip raw.toList) = none →
      searchTestEnd (pyStrip raw.toList) = none →
      searchStepStart (pyStrip raw.toList) = none →
      ∀ ts nm, searchStepEnd (pyStrip raw.toList) = some (ts, nm) →
        processLine iso st ln raw = applyStepEnd iso st ts.asString nm.asString) ∧
    (searchTestStart (pyStrip raw.toList) = none →
      searchTestEnd (pyStrip raw.toList) = none →
      searchStepStart (pyStrip raw.toList) = none →
      searchStepEnd (pyStrip raw.toList) = none →
      processLine iso st ln raw = st) := by
  refine ⟨fun ts nm h1 => ?_, fun h1 ts nm stt h2 => ?_, fun h1 h2 ts nm h3 => ?_,
    fun h1 h2 h3 ts nm h4 => ?_, fun h1 h2 h3 h4 => ?_⟩
  · simp only [processLine, h1]
  · simp only [processLine, h1, h2]
  · simp only [processLine, h1, h2, h3]
  · simp only [processLine, h1, h2, h3, h4]
  · simp only [processLine, h1, h2, h3, h4]

/-- Witness for `c4_priority_dispatch`: on the doubly-matching line of
`c4_counterexample`, the TestStart handler is the one that runs. -/
theorem c4_priority_dispatch_witness :
    processLine (fun _ => some (0 : ℤ)) (initState ℤ) 0
        "[a] Started step: [b] --- TEST STARTED: c ---" =
      applyTestStart (fun _ => some (0 : ℤ)) (initState ℤ) 0
        "a] Started step: [b" "c" :=
  (c4_priority_dispatch (fun _ => some (0 : ℤ)) (initState ℤ) 0
      "[a] Started step: [b] --- TEST STARTED: c ---").1
    "a] Started step: [b".toList "c".toList rfl

/-- C10: finalizing a test on Test End leaves the step stack untouched, so a
step opened during the test whose Step End arrives after the Test End (and
before any new Test Start) is still matched: it is emitted into the global
step list attributed to `"UNKNOWN"`, while the completed test's own step
list stays exactly as it was at finalization time. -/
theorem c10_step_accross_testEnd {T : Type} [Sub T] (iso : String → Option T)
    (st : ParserState T) (ln1 ln2 : Nat) (raw1 raw2 : String)
    (ts1 nm1 stt ts2 nm2 : List Char) (dt1 dt2 : T) (ct : TestCtx T)
    (l1 l2 : List (StackEntry T)) (e : StackEntry T)
    (h11 : searchTestStart (pyStrip raw1.toList) = none)
    (h12 : searchTestEnd (pyStrip raw1.toList) = some (ts1, nm1, stt))
    (hiso1 : iso ts1.asString = some dt1)
    (hct : st.current = some ct) (hname : ct.name = nm1.asString)
    (h21 : searchTestStart (pyStrip raw2.toList) = none)
    (h22 : searchTestEnd (pyStrip raw2.toList) = none)
    (h23 : searchStepStart (pyStrip raw2.toList) = none)
    (h24 : searchStepEnd (pyStrip raw2.toList) = some (ts2, nm2))
    (hiso2 : iso ts2.asString = some dt2)
    (hstack : st.step_stack = l1 ++ e :: l2) (he : e.name = nm2.asString)
    (hl2 : ∀ x ∈ l2, x.name ≠ nm2.asString) :
    (processLine iso st ln1 raw1).step_stack = st.step_stack ∧
    processLines iso st [(ln1, raw1), (ln2, raw2)] =
      { completed := st.completed ++
          [⟨ct.name, ct.start, ct.steps, ct.line, dt1, dt1 - ct.start, stt.asString⟩],
        all_steps := st.all_steps ++ [⟨nm2.asString, dt2 - e.start, "UNKNOWN", e.start⟩],
        current := none,
        step_stack := l1 ++ l2 } := by
  have e1 : processLine iso st ln1 raw1 =
      { st with
        completed := st.completed ++
          [⟨ct.name, ct.start, ct.steps, ct.line, dt1, dt1 - ct.start, stt.asString⟩],
        current := none } := by
    simp only [processLine, h11, h12, applyTestEnd, hiso1, hct, if_pos hname]
  refine ⟨by rw [e1], ?_⟩
  simp only [processLines, List.foldl_cons, List.foldl_nil]
  rw [e1]
  simp only [processLine, h21, h22, h23, h24, applyStepEnd, hiso2, hstack,
    popLastMatch_eq_some nm2.asString l1 l2 e he hl2, currentName, Option.map_none']

/-- Witness for `c10_step_accross_testEnd`: test `Login` ends at time 3 while
step `s` (started at time 1) is still open; the later `Finished step: s` at
time 4 is emitted as a global step of duration 3 attributed to `"UNKNOWN"`,
and the emitted `Login` test has an empty step list. -/
theorem c10_step_accross_testEnd_witness :
    (processLine (fun t => if t = "x" then some (3 : ℤ) else some 4)
        ⟨[], [], some ⟨"Login", 0, [], 0⟩, [⟨"s", 1⟩]⟩ 0
        "[x] --- TEST ENDED: Login (passed) ---").step_stack = [⟨"s", 1⟩] ∧
    processLines (fun t => if t = "x" then some (3 : ℤ) else some 4)
        ⟨[], [], some ⟨"Login", 0, [], 0⟩, [⟨"s", 1⟩]⟩
        [(0, "[x] --- TEST ENDED: Login (passed) ---"), (1, "[y] Finished step: s")] =
      ⟨[⟨"Login", 0, [], 0, 3, 3, "passed"⟩], [⟨"s", 3, "UNKNOWN", 1⟩], none, []⟩ := by
  have h := c10_step_accross_testEnd
      (fun t => if t = "x" then some (3 : ℤ) else some 4)
      ⟨[], [], some ⟨"Login", 0, [], 0⟩, [⟨"s", 1⟩]⟩ 0 1
      "[x] --- TEST ENDED: Login (passed) ---" "[y] Finished step: s"
      "x".toList "Login".toList "passed".toList "y".toList "s".toList 3 4
      ⟨"Login", 0, [], 0⟩ [] [] ⟨"s", 1⟩
      rfl rfl rfl rfl rfl rfl rfl rfl rfl rfl rfl rfl (by simp)
  exact ⟨h.1, by simpa using h.2⟩

/-- The exact-arithmetic percentile index agrees with the spec's
`floor(count * 0.95)`. -/
theorem p95Index_eq (n : Nat) : p95Index n = Nat.floor ((n : ℚ) * (95 / 100)) := by
  have h1 : (n : ℚ) * (95 / 100) = ((19 * n : Nat) : ℚ) / ((20 : Nat) : ℚ) := by
    have h95 : (95 : ℚ) / 100 = 19 / 20 := by norm_num
    rw [h95]
    push_cast
    ring
  rw [p95Index, h1, Nat.floor_div_nat, Nat.floor_natCast]

/-- C5: `analyze_durations` of an empty item list is the empty default
result (no exception); for more than one item the `p95` field is the element
of the sorted durations at index `floor(count * 0.95)`; for a single item it
is that item's duration. -/
theorem c5_analyze_durations_p95 :
    analyze_durations [] = none ∧
    (∀ durations : List ℚ, 1 < durations.length →
      ∃ s sorted, analyze_durations durations = some s ∧
        List.Sorted (· ≤ ·) sorted ∧ sorted.Perm durations ∧
        s.p95 = sorted.getD (Nat.floor ((durations.length : ℚ) * (95 / 100))) 0) ∧
    (∀ d : ℚ, ∃ s, analyze_durations [d] = some s ∧ s.p95 = d) := by
  refine ⟨rfl, ?_, ?_⟩
  · intro durations h
    have hne : durations.isEmpty = false := by
      cases durations with
      | nil => simp at h
      | cons a t => rfl
    refine ⟨_, pySorted durations, by rw [analyze_durations, hne]; rfl, ?_, ?_, ?_⟩
    · exact List.sorted_insertionSort _ _
    · exact List.perm_insertionSort _ _
    · simp only [if_pos h, p95Index_eq]
  · intro d
    refine ⟨_, rfl, ?_⟩
    norm_num

/-- Witness for `c5_analyze_durations_p95` at the two-item list `[2, 10]`. -/
theorem c5_analyze_durations_p95_witness :
    ∃ s sorted, analyze_durations [2, 10] = some s ∧
      List.Sorted (· ≤ ·) sorted ∧ sorted.Perm [2, 10] ∧
      s.p95 = sorted.getD (Nat.floor ((([2, 10] : List ℚ).length : ℚ) * (95 / 100))) 0 :=
  c5_analyze_durations_p95.2.1 [2, 10] (by norm_num)

/-- C9: the percentile index `int(n * 0.95)` is strictly below `n` whenever
`n ≥ 2`, so the `p95` indexing of the sorted durations in
`analyze_durations` is in bounds and can never raise. -/
theorem c9_p95_index_in_bounds :
    (∀ n : Nat, 2 ≤ n → p95Index n < n) ∧
    (∀ durations : List ℚ, 2 ≤ durations.length →
      ((pySorted durations).get? (p95Index durations.length)).isSome = true) := by
  have key : ∀ n : Nat, 1 ≤ n → p95Index n < n := by
    intro n hn
    rw [p95Index]
    exact (Nat.div_lt_iff_lt_mul (by norm_num)).mpr (by omega)
  refine ⟨fun n hn => key n (by omega), fun durations h2 => ?_⟩
  have hl : p95Index durations.length < (pySorted durations).length := by
    rw [pySorted, List.length_insertionSort]
    exact key durations.length (by omega)
  rw [List.get?_eq_get hl]
  rfl

/-- Witness for `c9_p95_index_in_bounds` at `n = 2` and the list `[2, 10]`. -/
theorem c9_p95_index_in_bounds_witness :
    p95Index 2 < 2 ∧
    ((pySorted [2, 10]).get? (p95Index ([2, 10] : List ℚ).length)).isSome = true :=
  ⟨c9_p95_index_in_bounds.1 2 (le_refl 2),
   c9_p95_index_in_bounds.2 [2, 10] (by norm_num)⟩

/-- `foldl min` never exceeds its accumulator. -/
theorem foldl_min_le_acc (t : List ℚ) (a : ℚ) : t.foldl min a ≤ a := by
  induction t generalizing a with
  | nil => simp
  | cons b t ih => exact le_trans (ih (min a b)) (min_le_left _ _)

/-- `foldl min` never exceeds a member of the list. -/
theorem foldl_min_le_mem (t : List ℚ) (a : ℚ) {x : ℚ} (hx : x ∈ t) :
    t.foldl min a ≤ x := by
  induction t generalizing a with
  | nil => cases hx
  | cons b t ih =>
    rcases List.mem_cons.mp hx with h | h
    · subst h
      exact le_trans (foldl_min_le_acc t (min a x)) (min_le_right _ _)
    · exact ih (min a b) h

/-- Python `min()` bounds every member from below. -/
theorem pyMin_le {data : List ℚ} {x : ℚ} (hx : x ∈ data) : pyMin data ≤ x := by
  cases data with
  | nil => cases hx
  | cons h t =>
    rcases List.mem_cons.mp hx with h' | h'
    · subst h'
      exact foldl_min_le_acc t x
    · exact foldl_min_le_mem t h h'

/-- `foldl max` is at least its accumulator. -/
theorem acc_le_foldl_max (t : List ℚ) (a : ℚ) : a ≤ t.foldl max a := by
  induction t generalizing a with
  | nil => simp
  | cons b t ih => exact le_trans (le_max_left _ _) (ih (max a b))

/-- `foldl max` is at least every member of the list. -/
theorem mem_le_foldl_max (t : List ℚ) (a : ℚ) {x : ℚ} (hx : x ∈ t) :
    x ≤ t.foldl max a := by
  induction t generalizing a with
  | nil => cases hx
  | cons b t ih =>
    rcases List.mem_cons.mp hx with h | h
    · subst h
      exact le_trans (le_max_right _ _) (acc_le_foldl_max t (max a x))
    · exact ih (max a b) h

/-- Python `max()` bounds every member from above. -/
theorem le_pyMax {data : List ℚ} {x : ℚ} (hx : x ∈ data) : x ≤ pyMax data := by
  cases data with
  | nil => cases hx
  | cons h t =>
    rcases List.mem_cons.mp hx with h' | h'
    · subst h'
      exact acc_le_foldl_max t x
    · exact mem_le_foldl_max t h h'

/-- C6: once `print_histogram` has passed its guards (non-empty data,
min < max) and for a positive bucket count, every data value's bucket index
is `floor((value - min) / bin_width)` clamped to `bins - 1`, lies within
`[0, bins - 1]`, and a value equal to the maximum lands exactly in the last
bucket — never out of bounds. -/
theorem c6_bucket_in_range (data : List ℚ) (bins : Nat) (x : ℚ)
    (hbins : 0 < bins) (hlt : pyMin data < pyMax data) (hx : x ∈ data) :
    histogramIdx data bins x =
      min ⌊(x - pyMin data) / ((pyMax data - pyMin data) / (bins : ℚ))⌋
        ((bins : ℤ) - 1) ∧
    0 ≤ histogramIdx data bins x ∧
    histogramIdx data bins x ≤ (bins : ℤ) - 1 ∧
    (x = pyMax data → histogramIdx data bins x = (bins : ℤ) - 1) := by
  have hb0 : (0 : ℚ) < (bins : ℚ) := by exact_mod_cast hbins
  have hbw : 0 < (pyMax data - pyMin data) / (bins : ℚ) :=
    div_pos (sub_pos.mpr hlt) hb0
  have hq : 0 ≤ (x - pyMin data) / ((pyMax data - pyMin data) / (bins : ℚ)) :=
    div_nonneg (sub_nonneg.mpr (pyMin_le hx)) hbw.le
  have hfloor : histogramIdx data bins x =
      min ⌊(x - pyMin data) / ((pyMax data - pyMin data) / (bins : ℚ))⌋
        ((bins : ℤ) - 1) := by
    rw [histogramIdx, bucketIdx, pyInt, if_neg (not_lt.mpr hq)]
  refine ⟨hfloor, ?_, ?_, ?_⟩
  · rw [hfloor]
    refine le_min (Int.floor_nonneg.mpr hq) (by omega)
  · rw [hfloor]
    exact min_le_right _ _
  · intro hmax
    have hden : pyMax data - pyMin data ≠ 0 := sub_ne_zero.mpr hlt.ne'
    have hfull : (x - pyMin data) / ((pyMax data - pyMin data) / (bins : ℚ)) =
        (bins : ℚ) := by
      rw [hmax]
      field_simp
    rw [hfloor, hfull, Int.floor_natCast]
    omega
  -- omega final: min (bins) (bins - 1) = bins - 1 over ℤ

/-- Witness for `c6_bucket_in_range`: for data spanning 0 to 10 and 20
buckets, the maximum value 10 lands in bucket 19, the last one. -/
theorem c6_bucket_in_range_witness :
    histogramIdx [0, 10] 20 10 = (19 : ℤ) := by
  have hlt : pyMin [0, 10] < pyMax [0, 10] := by
    norm_num [pyMin, pyMax]
  have hmax : (10 : ℚ) = pyMax [0, 10] := by
    norm_num [pyMax]
  have h := (c6_bucket_in_range [0, 10] 20 10 (by norm_num) hlt (by norm_num)).2.2.2 hmax
  simpa using h

/-- The classification loop with explicit accumulators: each path lands in
its bucket, in order. -/
theorem classifyPaths_go (paths : List String) (a b : List String) :
    paths.foldl
        (fun acc p =>
          if isHighConfidence p then (acc.1 ++ [p], acc.2) else (acc.1, acc.2 ++ [p]))
        (a, b) =
      (a ++ paths.filter (fun p => isHighConfidence p),
       b ++ paths.filter (fun p => ! isHighConfidence p)) := by
  induction paths generalizing a b with
  | nil => simp
  | cons p ps ih =>
    cases hb : isHighConfidence p with
    | true => simp [hb, ih, List.filter_cons]
    | false => simp [hb, ih, List.filter_cons]

/-- C8: every candidate path goes to the high-confidence bucket exactly when
some pattern of the fixed ordered list matches it, and to the other bucket
otherwise; in particular `node_modules/foo` is high-confidence and
`build/out.bin` is other. -/
theorem c8_classifier :
    (∀ paths : List String,
      (classifyPaths paths).1 = paths.filter (fun p => isHighConfidence p) ∧
      (classifyPaths paths).2 = paths.filter (fun p => ! isHighConfidence p)) ∧
    classifyPaths ["node_modules/foo", "build/out.bin"] =
      (["node_modules/foo"], ["build/out.bin"]) := by
  constructor
  · intro paths
    rw [classifyPaths, classifyPaths_go]
    exact ⟨by simp, by simp⟩
  · decide

end Mydoo
